import Mathlib

/-!
Verification development for the vis-network fork's curved-edge geometry
engine and selection/hover state machine.  The geometry functions
(`_findBorderPositionBezier`, `_getDistanceToBezierEdge`,
`getControlPoints`, `Ellipse.distanceToBorder`) are embedded as functions
over exact numbers (rationals where the computation stays rational, reals
where square roots or trigonometry appear).  The selection machinery
(`SelectionHandler` with its `SelectionAccumulator`) is embedded as
state-passing functions over finite sets of identifiers.
-/

namespace VisNet

/-!
## Border bisection (`BezierEdgeBase._findBorderPositionBezier`)

The source loop does bisection on the curve parameter `t`: at each step it
evaluates the curve point at the bracket midpoint, measures the distance
from the near node's center to that point, and compares it against the
node's border distance along the corresponding angle.  For the claim's
scenario the border-distance function is circular (constant in the angle),
so the only quantity the loop inspects is the map
`t ↦ distance(node center, curve point at t)`; the embedding takes that
composed map as the parameter `d` and the constant border radius as
`border`.  `maxIterations = 10` becomes the fuel argument (initial value
10), `threshold = 0.2` is the exact rational `1/5`, and the do-while
condition `low <= high && iteration < maxIterations` is checked after the
bracket update exactly as in the source.  The function returns the `t`
value of the last computed point (the source returns that point and its
`t`; the point's distance from the node center is `d t` by construction).
-/

def bisect (d : ℚ → ℚ) (border : ℚ) (isFrom : Bool) : ℕ → ℚ → ℚ → ℚ
  | 0, low, high => (low + high) / 2
  | fuel + 1, low, high =>
    let middle := (low + high) / 2
    let difference := border - d middle
    if |difference| < 1 / 5 then middle
    else
      let low2 := if difference < 0 then (if isFrom then low else middle)
                  else (if isFrom then middle else low)
      let high2 := if difference < 0 then (if isFrom then middle else high)
                   else (if isFrom then high else middle)
      if low2 ≤ high2 ∧ 0 < fuel then bisect d border isFrom fuel low2 high2 else middle

def findBorderPositionBezier (d : ℚ → ℚ) (border : ℚ) (isFrom : Bool) : ℚ :=
  bisect d border isFrom 10 0 1

/-- Modelled from the spec: for a straight (no via point) edge the path is
the line segment from→to, so when the near node's center sits at the
`from` endpoint the distance from that center to the curve point at
parameter `t` is `t` times the chord length `L` (for `t ∈ [0,1]`,
`dist(from, from + t·(to − from)) = t·L`).  The curve evaluator
(`getPoint`) itself is not under `src/`. -/
def lineDistFrom (L t : ℚ) : ℚ := L * t

/-- Modelled from the spec: same as `lineDistFrom`, for the near node
whose center sits at the `to` endpoint of the straight edge, at distance
`(1 − t)·L` from the curve point at parameter `t`. -/
def lineDistTo (L t : ℚ) : ℚ := L * (1 - t)

theorem bisect_linear_from (L r : ℚ) (hL : 0 < L) :
    ∀ (fuel : ℕ) (low high : ℚ), L * low ≤ r → r ≤ L * high →
      |L * bisect (lineDistFrom L) r true fuel low high - r| ≤
        max (1 / 5) (L * (high - low) / 2 ^ fuel) := by
  intro fuel
  induction fuel with
  | zero =>
    intro low high hlo hhi
    have hm : L * ((low + high) / 2) = (L * low + L * high) / 2 := by ring
    have hlh : low ≤ high := by
      have h2 : L * low ≤ L * high := le_trans hlo hhi
      exact le_of_mul_le_mul_left h2 hL
    simp only [bisect, pow_zero]
    refine le_max_of_le_right ?_
    rw [div_one, abs_le]
    constructor <;> nlinarith [hlo, hhi, hm, hL.le, hlh]
  | succ n ih =>
    intro low high hlo hhi
    have hlh : low ≤ high := by
      have h2 : L * low ≤ L * high := le_trans hlo hhi
      exact le_of_mul_le_mul_left h2 hL
    have hm : L * ((low + high) / 2) = (L * low + L * high) / 2 := by ring
    simp only [bisect, lineDistFrom]
    by_cases hb : |r - L * ((low + high) / 2)| < 1 / 5
    · simp only [if_pos hb]
      have : |L * ((low + high) / 2) - r| < 1 / 5 := by
        rw [abs_sub_comm]; exact hb
      exact le_max_of_le_left this.le
    · simp only [if_neg hb]
      by_cases hd : r - L * ((low + high) / 2) < 0
      · -- point farther than border: for the from node, shrink from above
        simp only [if_pos hd, if_pos rfl]
        have hg : low ≤ (low + high) / 2 := by linarith
        rcases Nat.eq_zero_or_pos n with hn | hn
        · subst hn
          simp only [lt_irrefl, and_false, if_false]
          refine le_max_of_le_right ?_
          rw [abs_le]
          constructor <;> nlinarith [hlo, hd, hm]
        · simp only [hg, hn, and_self, if_true, true_and, if_pos hn]
          have hrec := ih low ((low + high) / 2) hlo (by linarith)
          refine le_trans hrec (max_le_max le_rfl ?_)
          have h2 : L * ((low + high) / 2 - low) / 2 ^ n = L * (high - low) / 2 ^ (n + 1) := by
            rw [pow_succ]; ring
          rw [← h2]
      · -- point nearer than border: for the from node, shrink from below
        simp only [if_neg hd, if_pos rfl]
        have hg : (low + high) / 2 ≤ high := by linarith
        have hlo2 : L * ((low + high) / 2) ≤ r := by linarith
        rcases Nat.eq_zero_or_pos n with hn | hn
        · subst hn
          simp only [lt_irrefl, and_false, if_false]
          refine le_max_of_le_right ?_
          rw [abs_le]
          constructor <;> nlinarith [hhi, hlo2, hm]
        · simp only [hg, hn, and_self, if_true, true_and, if_pos hn]
          have hrec := ih ((low + high) / 2) high hlo2 hhi
          refine le_trans hrec (max_le_max le_rfl ?_)
          have h2 : L * (high - (low + high) / 2) / 2 ^ n = L * (high - low) / 2 ^ (n + 1) := by
            rw [pow_succ]; ring
          rw [← h2]

theorem bisect_linear_to (L r : ℚ) (hL : 0 < L) :
    ∀ (fuel : ℕ) (low high : ℚ), L * (1 - high) ≤ r → r ≤ L * (1 - low) →
      |L * (1 - bisect (lineDistTo L) r false fuel low high) - r| ≤
        max (1 / 5) (L * (high - low) / 2 ^ fuel) := by
  intro fuel
  induction fuel with
  | zero =>
    intro low high hlo hhi
    have hm : L * (1 - (low + high) / 2) = (L * (1 - low) + L * (1 - high)) / 2 := by ring
    have hlh : low ≤ high := by
      have h2 : L * (1 - high) ≤ L * (1 - low) := le_trans hlo hhi
      have h3 : 1 - high ≤ 1 - low := le_of_mul_le_mul_left h2 hL
      linarith
    simp only [bisect, pow_zero]
    refine le_max_of_le_right ?_
    rw [div_one, abs_le]
    constructor <;> nlinarith [hlo, hhi, hm, hL.le, hlh]
  | succ n ih =>
    intro low high hlo hhi
    have hlh : low ≤ high := by
      have h2 : L * (1 - high) ≤ L * (1 - low) := le_trans hlo hhi
      have h3 : 1 - high ≤ 1 - low := le_of_mul_le_mul_left h2 hL
      linarith
    have hm : L * (1 - (low + high) / 2) = (L * (1 - low) + L * (1 - high)) / 2 := by ring
    simp only [bisect, lineDistTo]
    by_cases hb : |r - L * (1 - (low + high) / 2)| < 1 / 5
    · simp only [if_pos hb]
      have : |L * (1 - (low + high) / 2) - r| < 1 / 5 := by
        rw [abs_sub_comm]; exact hb
      exact le_max_of_le_left this.le
    · simp only [if_neg hb]
      by_cases hd : r - L * (1 - (low + high) / 2) < 0
      · -- point farther than border: for the to node, shrink from below
        simp only [if_pos hd, Bool.false_eq_true, if_false]
        have hg : (low + high) / 2 ≤ high := by linarith
        have hhi2 : r ≤ L * (1 - (low + high) / 2) := by linarith
        rcases Nat.eq_zero_or_pos n with hn | hn
        · subst hn
          simp only [lt_irrefl, and_false, if_false]
          refine le_max_of_le_right ?_
          rw [abs_le]
          constructor <;> nlinarith [hlo, hhi2, hm]
        · simp only [hg, hn, and_self, if_true, true_and, if_pos hn]
          have hrec := ih ((low + high) / 2) high hlo hhi2
          refine le_trans hrec (max_le_max le_rfl ?_)
          have h2 : L * (high - (low + high) / 2) / 2 ^ n = L * (high - low) / 2 ^ (n + 1) := by
            rw [pow_succ]; ring
          rw [← h2]
      · -- point nearer than border: for the to node, shrink from above
        simp only [if_neg hd, Bool.false_eq_true, if_false]
        have hg : low ≤ (low + high) / 2 := by linarith
        have hlo2 : L * (1 - (low + high) / 2) ≤ r := by linarith
        rcases Nat.eq_zero_or_pos n with hn | hn
        · subst hn
          simp only [lt_irrefl, and_false, if_false]
          refine le_max_of_le_right ?_
          rw [abs_le]
          constructor <;> nlinarith [hhi, hlo2, hm]
        · simp only [hg, hn, and_self, if_true, true_and, if_pos hn]
          have hrec := ih low ((low + high) / 2) hlo2 hhi
          refine le_trans hrec (max_le_max le_rfl ?_)
          have h2 : L * ((low + high) / 2 - low) / 2 ^ n = L * (high - low) / 2 ^ (n + 1) := by
            rw [pow_succ]; ring
          rw [← h2]

/-- Claim C1, counterexample: for a node with circular border distance 100
whose center sits at the `from` endpoint of a straight edge of chord
length 1000000 (an edge that crosses the border, since 100 ≤ 1000000),
the point returned by `findBorderPositionBezier` after its 10 iterations
sits at distance 1000000/1024 = 976.5625 from the node center, which
misses the border distance 100 by far more than the claimed 0.2. -/
theorem findBorderPositionBezier_long_edge_counterexample :
    (1 / 5 : ℚ) <
      |lineDistFrom 1000000 (findBorderPositionBezier (lineDistFrom 1000000) 100 true) - 100| := by
  norm_num [findBorderPositionBezier, bisect, lineDistFrom, abs_of_neg, abs_of_nonneg]

/-- Claim C1 (amended): for every node whose border-distance function is
circular (constant radius `r`) and every straight 2-node edge crossing
that border **whose chord length `L` is at most 204 units**,
`findBorderPositionBezier` (bisection with low=0, high=1, threshold 0.2,
at most 10 iterations) returns a point whose distance from the node's
center equals the border distance to within 0.2 — whether the near node
is the `from` endpoint or the `to` endpoint of the edge. -/
theorem findBorderPositionBezier_short_edge_within_threshold (L r : ℚ)
    (hL : 0 < L) (hL204 : L ≤ 204) (hr0 : 0 ≤ r) (hrL : r ≤ L) :
    |lineDistFrom L (findBorderPositionBezier (lineDistFrom L) r true) - r| ≤ 1 / 5 ∧
    |lineDistTo L (findBorderPositionBezier (lineDistTo L) r false) - r| ≤ 1 / 5 := by
  have hfrom := bisect_linear_from L r hL 10 0 1 (by simpa using hr0) (by simpa using hrL)
  have hto := bisect_linear_to L r hL 10 0 1 (by simpa using hr0) (by simpa using hrL)
  have hcap : L * (1 - 0) / 2 ^ 10 ≤ 1 / 5 := by norm_num; linarith
  constructor
  · have := le_trans hfrom (max_le (le_refl (1 / 5)) hcap)
    simpa [findBorderPositionBezier, lineDistFrom] using this
  · have := le_trans hto (max_le (le_refl (1 / 5)) hcap)
    simpa [findBorderPositionBezier, lineDistTo] using this

/-- Witness for the amended claim C1 at chord length 100 and border
radius 50. -/
theorem findBorderPositionBezier_short_edge_witness :
    (0 : ℚ) < 100 ∧ (100 : ℚ) ≤ 204 ∧ (0 : ℚ) ≤ 50 ∧ (50 : ℚ) ≤ 100 ∧
      (|lineDistFrom 100 (findBorderPositionBezier (lineDistFrom 100) 50 true) - 50| ≤ 1 / 5 ∧
       |lineDistTo 100 (findBorderPositionBezier (lineDistTo 100) 50 false) - 50| ≤ 1 / 5) :=
  ⟨by norm_num, by norm_num, by norm_num, by norm_num,
    findBorderPositionBezier_short_edge_within_threshold 100 50
      (by norm_num) (by norm_num) (by norm_num) (by norm_num)⟩

/-!
## Distance from a point to the sampled bezier path
(`BezierEdgeBase._getDistanceToBezierEdge`)

`_getDistanceToLine` lives in `EdgeBase` (not under `src/`) and is
modelled from the spec; the sampling loop is translated line by line from
`_getDistanceToBezierEdge`: `minDistance` starts at `1e9`, the counter
runs `i = 1 .. 9`, each step evaluates the quadratic at `t = 0.1·i` and
measures the distance from the query point to the segment joining the
previous sample (`lastX`, `lastY`, initialized to the `t = 0` endpoint)
to the current one.
-/

/-- Modelled from the spec: the minimum distance from the query point
`(x3, y3)` to the line segment from `(x1, y1)` to `(x2, y2)`, computed by
clamping the orthogonal projection parameter `u` into `[0, 1]`
(`EdgeBase._getDistanceToLine` is not under `src/`). -/
noncomputable def getDistanceToLine (x1 y1 x2 y2 x3 y3 : ℝ) : ℝ :=
  let px := x2 - x1
  let py := y2 - y1
  let something := px * px + py * py
  let u0 := ((x3 - x1) * px + (y3 - y1) * py) / something
  let u := if 1 < u0 then 1 else if u0 < 0 then 0 else u0
  let x := x1 + u * px
  let y := y1 + u * py
  Real.sqrt ((x - x3) * (x - x3) + (y - y3) * (y - y3))

/-- One coordinate of the quadratic bezier point, exactly the expression
`Math.pow(1 - t, 2) * x1 + 2 * t * (1 - t) * via.x + Math.pow(t, 2) * x2`
from the sampling loop. -/
noncomputable def bezierPointX (x1 x2 vx t : ℝ) : ℝ :=
  (1 - t) ^ 2 * x1 + 2 * t * (1 - t) * vx + t ^ 2 * x2

noncomputable def bezierDistGo (x1 y1 x2 y2 x3 y3 vx vy : ℝ) :
    ℕ → ℕ → ℝ → ℝ → ℝ → ℝ
  | 0, _, _, _, minD => minD
  | fuel + 1, i, lastX, lastY, minD =>
    let t : ℝ := 0.1 * i
    let x := bezierPointX x1 x2 vx t
    let y := bezierPointX y1 y2 vy t
    let d := getDistanceToLine lastX lastY x y x3 y3
    bezierDistGo x1 y1 x2 y2 x3 y3 vx vy fuel (i + 1) x y
      (if d < minD then d else minD)

noncomputable def getDistanceToBezierEdge (x1 y1 x2 y2 x3 y3 vx vy : ℝ) : ℝ :=
  bezierDistGo x1 y1 x2 y2 x3 y3 vx vy 9 1 x1 y1 (10 ^ 9)

/-- Distance from the query point to the segment joining the samples at
`t = 0.1·k` and `t = 0.1·(k+1)` of the quadratic through
`(x1,y1) → via → (x2,y2)`. -/
noncomputable def sampleSegmentDistance (x1 y1 x2 y2 x3 y3 vx vy : ℝ) (k : ℕ) : ℝ :=
  getDistanceToLine (bezierPointX x1 x2 vx (0.1 * (k : ℝ)))
    (bezierPointX y1 y2 vy (0.1 * (k : ℝ)))
    (bezierPointX x1 x2 vx (0.1 * ((k + 1 : ℕ) : ℝ)))
    (bezierPointX y1 y2 vy (0.1 * ((k + 1 : ℕ) : ℝ))) x3 y3

/-- Modelled from the spec sentence behind claim C4: sample the path at
`t = 0.1 … 0.9` — nine samples plus both implicit endpoints at `t = 0`
and `t = 1` — and return the minimum over every consecutive pair of
sampled points (ten segments, `k = 0 … 9`) of the distance from the query
point to that segment. -/
noncomputable def claimedBezierDistance (x1 y1 x2 y2 x3 y3 vx vy : ℝ) : ℝ :=
  ((List.range 10).map (fun k => sampleSegmentDistance x1 y1 x2 y2 x3 y3 vx vy k)).foldl
    min (sampleSegmentDistance x1 y1 x2 y2 x3 y3 vx vy 0)

theorem bezierDistGo_min_spec (x1 y1 x2 y2 x3 y3 vx vy : ℝ) :
    ∀ (fuel j : ℕ) (minD : ℝ),
      (bezierDistGo x1 y1 x2 y2 x3 y3 vx vy fuel (j + 1)
          (bezierPointX x1 x2 vx (0.1 * (j : ℝ)))
          (bezierPointX y1 y2 vy (0.1 * (j : ℝ))) minD = minD ∨
        ∃ k : ℕ, j ≤ k ∧ k < j + fuel ∧
          bezierDistGo x1 y1 x2 y2 x3 y3 vx vy fuel (j + 1)
            (bezierPointX x1 x2 vx (0.1 * (j : ℝ)))
            (bezierPointX y1 y2 vy (0.1 * (j : ℝ))) minD =
          sampleSegmentDistance x1 y1 x2 y2 x3 y3 vx vy k) ∧
      bezierDistGo x1 y1 x2 y2 x3 y3 vx vy fuel (j + 1)
          (bezierPointX x1 x2 vx (0.1 * (j : ℝ)))
          (bezierPointX y1 y2 vy (0.1 * (j : ℝ))) minD ≤ minD ∧
      ∀ k : ℕ, j ≤ k → k < j + fuel →
        bezierDistGo x1 y1 x2 y2 x3 y3 vx vy fuel (j + 1)
            (bezierPointX x1 x2 vx (0.1 * (j : ℝ)))
            (bezierPointX y1 y2 vy (0.1 * (j : ℝ))) minD ≤
          sampleSegmentDistance x1 y1 x2 y2 x3 y3 vx vy k := by
  intro fuel
  induction fuel with
  | zero =>
    intro j minD
    refine ⟨Or.inl rfl, le_refl _, ?_⟩
    intro k hk1 hk2
    omega
  | succ n ih =>
    intro j minD
    have hstep : bezierDistGo x1 y1 x2 y2 x3 y3 vx vy (n + 1) (j + 1)
        (bezierPointX x1 x2 vx (0.1 * (j : ℝ)))
        (bezierPointX y1 y2 vy (0.1 * (j : ℝ))) minD =
        bezierDistGo x1 y1 x2 y2 x3 y3 vx vy n (j + 1 + 1)
          (bezierPointX x1 x2 vx (0.1 * ((j + 1 : ℕ) : ℝ)))
          (bezierPointX y1 y2 vy (0.1 * ((j + 1 : ℕ) : ℝ)))
          (if sampleSegmentDistance x1 y1 x2 y2 x3 y3 vx vy j < minD
           then sampleSegmentDistance x1 y1 x2 y2 x3 y3 vx vy j else minD) := rfl
    rw [hstep]
    obtain ⟨hmem, hle, hall⟩ :=
      ih (j + 1)
        (if sampleSegmentDistance x1 y1 x2 y2 x3 y3 vx vy j < minD
         then sampleSegmentDistance x1 y1 x2 y2 x3 y3 vx vy j else minD)
    have hm'le :
        (if sampleSegmentDistance x1 y1 x2 y2 x3 y3 vx vy j < minD
         then sampleSegmentDistance x1 y1 x2 y2 x3 y3 vx vy j else minD) ≤ minD := by
      split_ifs with h
      · exact h.le
      · exact le_refl _
    have hm'ds :
        (if sampleSegmentDistance x1 y1 x2 y2 x3 y3 vx vy j < minD
         then sampleSegmentDistance x1 y1 x2 y2 x3 y3 vx vy j else minD) ≤
          sampleSegmentDistance x1 y1 x2 y2 x3 y3 vx vy j := by
      split_ifs with h
      · exact le_refl _
      · exact le_of_not_lt h
    refine ⟨?_, le_trans hle hm'le, ?_⟩
    · rcases hmem with h | ⟨k, hk1, hk2, hk3⟩
      · by_cases hd : sampleSegmentDistance x1 y1 x2 y2 x3 y3 vx vy j < minD
        · right
          refine ⟨j, le_refl j, by omega, ?_⟩
          rw [h, if_pos hd]
        · left
          rw [h, if_neg hd]
      · right
        exact ⟨k, by omega, by omega, hk3⟩
    · intro k hk1 hk2
      rcases eq_or_lt_of_le hk1 with he | hlt
      · rw [← he]
        exact le_trans hle hm'ds
      · exact hall k (by omega) (by omega)

/-- Claim C4 (amended): for every edge with a single via control point
and every query point, `_getDistanceToBezierEdge` samples the quadratic
path at `t = 0.1, …, 0.9` and returns the minimum, over the **nine**
segments joining consecutive samples from `t = 0` through `t = 0.9`
(capped by the initial sentinel `10^9`), of the distance from the query
point to that segment; the terminal segment from the `t = 0.9` sample to
the `t = 1` endpoint is never measured. -/
theorem getDistanceToBezierEdge_nine_segments (x1 y1 x2 y2 x3 y3 vx vy : ℝ) :
    (getDistanceToBezierEdge x1 y1 x2 y2 x3 y3 vx vy = 10 ^ 9 ∨
      ∃ k : ℕ, k < 9 ∧ getDistanceToBezierEdge x1 y1 x2 y2 x3 y3 vx vy =
        sampleSegmentDistance x1 y1 x2 y2 x3 y3 vx vy k) ∧
    getDistanceToBezierEdge x1 y1 x2 y2 x3 y3 vx vy ≤ 10 ^ 9 ∧
    ∀ k : ℕ, k < 9 → getDistanceToBezierEdge x1 y1 x2 y2 x3 y3 vx vy ≤
      sampleSegmentDistance x1 y1 x2 y2 x3 y3 vx vy k := by
  have hx0 : bezierPointX x1 x2 vx (0.1 * ((0 : ℕ) : ℝ)) = x1 := by
    simp [bezierPointX]
  have hy0 : bezierPointX y1 y2 vy (0.1 * ((0 : ℕ) : ℝ)) = y1 := by
    simp [bezierPointX]
  have h := bezierDistGo_min_spec x1 y1 x2 y2 x3 y3 vx vy 9 0 (10 ^ 9)
  rw [hx0, hy0] at h
  simp only [zero_add] at h
  obtain ⟨h1, h2, h3⟩ := h
  unfold getDistanceToBezierEdge
  refine ⟨?_, h2, ?_⟩
  · rcases h1 with h | ⟨k, _, hk2, hk3⟩
    · exact Or.inl h
    · exact Or.inr ⟨k, hk2, hk3⟩
  · intro k hk
    exact h3 k (Nat.zero_le k) hk

/-- Witness for the amended claim C4 at a concrete edge and query
point. -/
theorem getDistanceToBezierEdge_nine_segments_witness :
    (8 : ℕ) < 9 ∧
      getDistanceToBezierEdge 0 0 10 0 10 0 5 0 ≤
        sampleSegmentDistance 0 0 10 0 10 0 5 0 8 :=
  ⟨by norm_num,
    (getDistanceToBezierEdge_nine_segments 0 0 10 0 10 0 5 0).2.2 8 (by norm_num)⟩

theorem bezierPointX_line (t : ℝ) : bezierPointX 0 10 5 t = 10 * t := by
  unfold bezierPointX
  ring

theorem bezierPointX_zero_line (t : ℝ) : bezierPointX 0 0 0 t = 0 := by
  unfold bezierPointX
  ring

theorem getDistanceToLine_unit_collinear (a : ℝ) (ha : a ≤ 9) :
    getDistanceToLine a 0 (a + 1) 0 10 0 = 9 - a := by
  unfold getDistanceToLine
  simp only []
  rw [show ((10 : ℝ) - a) * (a + 1 - a) + ((0 : ℝ) - 0) * (0 - 0) = 10 - a from by ring,
    show ((a : ℝ) + 1 - a) * (a + 1 - a) + ((0 : ℝ) - 0) * (0 - 0) = 1 from by ring,
    div_one]
  by_cases hlt : (1 : ℝ) < 10 - a
  · rw [if_pos hlt,
      show (a + 1 * (a + 1 - a) - 10) * (a + 1 * (a + 1 - a) - 10) +
          (0 + 1 * ((0 : ℝ) - 0) - 0) * (0 + 1 * (0 - 0) - 0) = (9 - a) * (9 - a) from by ring]
    exact Real.sqrt_mul_self (by linarith)
  · rw [if_neg hlt]
    have ha9 : a = 9 := by linarith
    subst ha9
    norm_num

theorem sampleSegmentDistance_collinear (k : ℕ) (hk : k ≤ 9) :
    sampleSegmentDistance 0 0 10 0 10 0 5 0 k = 9 - (k : ℝ) := by
  unfold sampleSegmentDistance
  rw [bezierPointX_line, bezierPointX_line, bezierPointX_zero_line, bezierPointX_zero_line]
  have h1 : (10 : ℝ) * (0.1 * (k : ℝ)) = (k : ℝ) := by
    ring_nf
  have h2 : (10 : ℝ) * (0.1 * ((k + 1 : ℕ) : ℝ)) = (k : ℝ) + 1 := by
    push_cast
    ring_nf
  rw [h1, h2]
  exact getDistanceToLine_unit_collinear (k : ℝ) (by exact_mod_cast hk)

/-- Claim C4, counterexample: for the quadratic from `(0,0)` through via
`(5,0)` to `(10,0)` (the path is the segment on the x-axis from 0 to 10)
and the query point `(10,0)`, the function returns 1 — the distance to
the nearest *measured* sample polyline, which stops at the `t = 0.9`
sample `(9,0)` — whereas the minimum over every consecutive pair of
sampled points including the `t = 1` endpoint (as the claim states) is 0,
because the query point lies on the final segment from `(9,0)` to
`(10,0)`. -/
theorem getDistanceToBezierEdge_last_segment_counterexample :
    getDistanceToBezierEdge 0 0 10 0 10 0 5 0 = 1 ∧
    claimedBezierDistance 0 0 10 0 10 0 5 0 = 0 ∧
    getDistanceToBezierEdge 0 0 10 0 10 0 5 0 ≠
      claimedBezierDistance 0 0 10 0 10 0 5 0 := by
  have hx0 : bezierPointX 0 10 5 (0.1 * ((0 : ℕ) : ℝ)) = 0 := by
    rw [bezierPointX_line]
    norm_num
  have hy0 : bezierPointX 0 0 0 (0.1 * ((0 : ℕ) : ℝ)) = 0 := bezierPointX_zero_line _
  have h := bezierDistGo_min_spec 0 0 10 0 10 0 5 0 9 0 (10 ^ 9)
  rw [hx0, hy0] at h
  simp only [zero_add] at h
  obtain ⟨hmem, -, hall⟩ := h
  have hgo : bezierDistGo 0 0 10 0 10 0 5 0 9 1 0 0 (10 ^ 9) =
      getDistanceToBezierEdge 0 0 10 0 10 0 5 0 := rfl
  rw [hgo] at hmem hall
  have h8 : getDistanceToBezierEdge 0 0 10 0 10 0 5 0 ≤ 1 := by
    have := hall 8 (by norm_num) (by norm_num)
    rwa [sampleSegmentDistance_collinear 8 (by norm_num), show (9 : ℝ) - ((8 : ℕ) : ℝ) = 1 from by norm_num] at this
  have hcode : getDistanceToBezierEdge 0 0 10 0 10 0 5 0 = 1 := by
    rcases hmem with hc | ⟨k, -, hk9, hc⟩
    · rw [hc] at h8
      norm_num at h8
    · rw [sampleSegmentDistance_collinear k (by omega)] at hc
      have hk8 : (8 : ℝ) ≤ (k : ℝ) := by
        rw [hc] at h8
        linarith
      have hk8n : (8 : ℕ) ≤ k := by exact_mod_cast hk8
      have hkeq : k = 8 := by omega
      subst hkeq
      rw [hc]
      norm_num
  have hclaimed : claimedBezierDistance 0 0 10 0 10 0 5 0 = 0 := by
    unfold claimedBezierDistance
    rw [show List.range 10 = [0, 1, 2, 3, 4, 5, 6, 7, 8, 9] from rfl]
    simp only [List.map]
    rw [sampleSegmentDistance_collinear 0 (by norm_num),
      sampleSegmentDistance_collinear 1 (by norm_num),
      sampleSegmentDistance_collinear 2 (by norm_num),
      sampleSegmentDistance_collinear 3 (by norm_num),
      sampleSegmentDistance_collinear 4 (by norm_num),
      sampleSegmentDistance_collinear 5 (by norm_num),
      sampleSegmentDistance_collinear 6 (by norm_num),
      sampleSegmentDistance_collinear 7 (by norm_num),
      sampleSegmentDistance_collinear 8 (by norm_num),
      sampleSegmentDistance_collinear 9 (by norm_num)]
    norm_num [List.foldl, min_def]
  refine ⟨hcode, hclaimed, ?_⟩
  rw [hcode, hclaimed]
  norm_num

/-!
## Chained-curve control points (`getControlPoints`)

Translated from the file-local `getControlPoints` helper: chord lengths
`d01`, `d12`, scaling factors `fa = t·d01/(d01+d12)`,
`fb = t·d12/(d01+d12)`, control point 1 at
`(x1 − fa·(x2−x0), y1 − fa·(y2−y0))` and control point 2 at
`(x1 + fb·(x2−x0), y1 + fb·(y2−y0))`.
-/

noncomputable def getControlPoints (x0 y0 x1 y1 x2 y2 t : ℝ) : ℝ × ℝ × ℝ × ℝ :=
  let d01 := Real.sqrt ((x1 - x0) ^ 2 + (y1 - y0) ^ 2)
  let d12 := Real.sqrt ((x2 - x1) ^ 2 + (y2 - y1) ^ 2)
  let fa := t * d01 / (d01 + d12)
  let fb := t * d12 / (d01 + d12)
  (x1 - fa * (x2 - x0), y1 - fa * (y2 - y0), x1 + fb * (x2 - x0), y1 + fb * (y2 - y0))

/-- Claim C5: `getControlPoints` returns control point 1 =
`to − fa·(eventual − from)` and control point 2 = `to + fb·(eventual − from)`
with `fa = t·d01/(d01+d12)` and `fb = t·d12/(d01+d12)` where `d01`, `d12`
are the chord lengths; consequently, for three colinear points with equal
spacing (`from = p`, `to = p + v`, `eventual = p + 2v` with `v ≠ 0`) and
tension `t = 1/2`, both control points lie on that same line — at
parameters `1/2` and `3/2` along the spacing vector `v`. -/
theorem getControlPoints_formula_and_collinear :
    (∀ x0 y0 x1 y1 x2 y2 t : ℝ,
      getControlPoints x0 y0 x1 y1 x2 y2 t =
        (x1 - t * Real.sqrt ((x1 - x0) ^ 2 + (y1 - y0) ^ 2) /
            (Real.sqrt ((x1 - x0) ^ 2 + (y1 - y0) ^ 2) +
              Real.sqrt ((x2 - x1) ^ 2 + (y2 - y1) ^ 2)) * (x2 - x0),
          y1 - t * Real.sqrt ((x1 - x0) ^ 2 + (y1 - y0) ^ 2) /
            (Real.sqrt ((x1 - x0) ^ 2 + (y1 - y0) ^ 2) +
              Real.sqrt ((x2 - x1) ^ 2 + (y2 - y1) ^ 2)) * (y2 - y0),
          x1 + t * Real.sqrt ((x2 - x1) ^ 2 + (y2 - y1) ^ 2) /
            (Real.sqrt ((x1 - x0) ^ 2 + (y1 - y0) ^ 2) +
              Real.sqrt ((x2 - x1) ^ 2 + (y2 - y1) ^ 2)) * (x2 - x0),
          y1 + t * Real.sqrt ((x2 - x1) ^ 2 + (y2 - y1) ^ 2) /
            (Real.sqrt ((x1 - x0) ^ 2 + (y1 - y0) ^ 2) +
              Real.sqrt ((x2 - x1) ^ 2 + (y2 - y1) ^ 2)) * (y2 - y0))) ∧
    (∀ x0 y0 vx vy : ℝ, vx ≠ 0 ∨ vy ≠ 0 →
      getControlPoints x0 y0 (x0 + vx) (y0 + vy) (x0 + 2 * vx) (y0 + 2 * vy) (1 / 2) =
        (x0 + 1 / 2 * vx, y0 + 1 / 2 * vy, x0 + 3 / 2 * vx, y0 + 3 / 2 * vy)) := by
  constructor
  · intro x0 y0 x1 y1 x2 y2 t
    rfl
  · intro x0 y0 vx vy hv
    have hvpos : 0 < vx ^ 2 + vy ^ 2 := by
      rcases hv with h | h
      · exact add_pos_of_pos_of_nonneg (pow_two_pos_of_ne_zero h) (sq_nonneg vy)
      · exact add_pos_of_nonneg_of_pos (sq_nonneg vx) (pow_two_pos_of_ne_zero h)
    simp only [getControlPoints]
    rw [show (x0 + vx - x0) ^ 2 + (y0 + vy - y0) ^ 2 = vx ^ 2 + vy ^ 2 from by ring,
      show (x0 + 2 * vx - (x0 + vx)) ^ 2 + (y0 + 2 * vy - (y0 + vy)) ^ 2 = vx ^ 2 + vy ^ 2 from by
        ring]
    have hdpos : 0 < Real.sqrt (vx ^ 2 + vy ^ 2) := Real.sqrt_pos.mpr hvpos
    have hfa : 1 / 2 * Real.sqrt (vx ^ 2 + vy ^ 2) /
        (Real.sqrt (vx ^ 2 + vy ^ 2) + Real.sqrt (vx ^ 2 + vy ^ 2)) = 1 / 4 := by
      field_simp
      ring
    rw [hfa]
    simp only [Prod.mk.injEq]
    refine ⟨by ring, by ring, by ring, by ring⟩

/-- Witness for claim C5's colinear part, at `p = (0,0)` and spacing
vector `v = (1,0)`. -/
theorem getControlPoints_collinear_witness :
    ((1 : ℝ) ≠ 0 ∨ (0 : ℝ) ≠ 0) ∧
      getControlPoints 0 0 (0 + 1) (0 + 0) (0 + 2 * 1) (0 + 2 * 0) (1 / 2) =
        (0 + 1 / 2 * 1, 0 + 1 / 2 * 0, 0 + 3 / 2 * 1, 0 + 3 / 2 * 0) :=
  ⟨Or.inl (by norm_num),
    getControlPoints_formula_and_collinear.2 0 0 1 0 (Or.inl (by norm_num))⟩

/-!
## Ellipse border distance (`Ellipse.distanceToBorder`)

Translated from the `Ellipse` class: `a = width·0.5`, `b = height·0.5`,
`w = sin(angle)·a`, `h = cos(angle)·b`, result `a·b / sqrt(w·w + h·h)`.
(The `resize` step is skipped; the embedding takes the node's current
`width`/`height` as inputs.)
-/

noncomputable def distanceToBorderEllipse (width height angle : ℝ) : ℝ :=
  let a := width * 0.5
  let b := height * 0.5
  let w := Real.sin angle * a
  let h := Real.cos angle * b
  a * b / Real.sqrt (w * w + h * h)

/-- Claim C10: for every ellipse node with positive width and height and
every angle, `Ellipse.distanceToBorder` returns exactly
`(a·b)/sqrt((a·sin angle)² + (b·cos angle)²)` with `a = width/2`,
`b = height/2`; the result is strictly positive, and it is the exact
radial distance from the center to the ellipse outline along that angle:
the point at that distance in direction `angle` satisfies the ellipse
equation `x²/a² + y²/b² = 1`. -/
theorem distanceToBorderEllipse_radial (width height angle : ℝ)
    (hw : 0 < width) (hh : 0 < height) :
    distanceToBorderEllipse width height angle =
      width / 2 * (height / 2) /
        Real.sqrt ((width / 2 * Real.sin angle) ^ 2 + (height / 2 * Real.cos angle) ^ 2) ∧
    0 < distanceToBorderEllipse width height angle ∧
    (distanceToBorderEllipse width height angle * Real.cos angle) ^ 2 / (width / 2) ^ 2 +
      (distanceToBorderEllipse width height angle * Real.sin angle) ^ 2 / (height / 2) ^ 2 =
      1 := by
  have hSpos : 0 < (width / 2 * Real.sin angle) ^ 2 + (height / 2 * Real.cos angle) ^ 2 := by
    rcases eq_or_ne (Real.sin angle) 0 with hs | hs
    · have hc : Real.cos angle ≠ 0 := by
        intro hc
        have h1 := Real.sin_sq_add_cos_sq angle
        rw [hs, hc] at h1
        norm_num at h1
      exact add_pos_of_nonneg_of_pos (sq_nonneg _)
        (pow_two_pos_of_ne_zero (mul_ne_zero (by positivity) hc))
    · exact add_pos_of_pos_of_nonneg
        (pow_two_pos_of_ne_zero (mul_ne_zero (by positivity) hs)) (sq_nonneg _)
  have hform : distanceToBorderEllipse width height angle =
      width / 2 * (height / 2) /
        Real.sqrt ((width / 2 * Real.sin angle) ^ 2 + (height / 2 * Real.cos angle) ^ 2) := by
    simp only [distanceToBorderEllipse]
    rw [show Real.sin angle * (width * 0.5) * (Real.sin angle * (width * 0.5)) +
        Real.cos angle * (height * 0.5) * (Real.cos angle * (height * 0.5)) =
        (width / 2 * Real.sin angle) ^ 2 + (height / 2 * Real.cos angle) ^ 2 from by ring]
    norm_num
    ring
  have hsqrtpos : 0 <
      Real.sqrt ((width / 2 * Real.sin angle) ^ 2 + (height / 2 * Real.cos angle) ^ 2) :=
    Real.sqrt_pos.mpr hSpos
  refine ⟨hform, ?_, ?_⟩
  · rw [hform]
    exact div_pos (by positivity) hsqrtpos
  · have hs2 : Real.sqrt ((width / 2 * Real.sin angle) ^ 2 +
        (height / 2 * Real.cos angle) ^ 2) ^ 2 =
        (width / 2 * Real.sin angle) ^ 2 + (height / 2 * Real.cos angle) ^ 2 :=
      Real.sq_sqrt hSpos.le
    have hsne : Real.sqrt ((width / 2 * Real.sin angle) ^ 2 +
        (height / 2 * Real.cos angle) ^ 2) ≠ 0 := ne_of_gt hsqrtpos
    have ha : (width / 2 : ℝ) ≠ 0 := by positivity
    have hb : (height / 2 : ℝ) ≠ 0 := by positivity
    rw [hform]
    rw [div_add_div _ _ (pow_ne_zero 2 ha) (pow_ne_zero 2 hb),
      div_eq_iff (by positivity : ((width / 2 : ℝ) ^ 2 * (height / 2) ^ 2) ≠ 0)]
    rw [show (width / 2 * (height / 2) /
        Real.sqrt ((width / 2 * Real.sin angle) ^ 2 + (height / 2 * Real.cos angle) ^ 2) *
          Real.cos angle) ^ 2 * (height / 2) ^ 2 +
        (width / 2) ^ 2 *
        (width / 2 * (height / 2) /
        Real.sqrt ((width / 2 * Real.sin angle) ^ 2 + (height / 2 * Real.cos angle) ^ 2) *
          Real.sin angle) ^ 2 =
        (width / 2) ^ 2 * (height / 2) ^ 2 *
          ((width / 2 * Real.sin angle) ^ 2 + (height / 2 * Real.cos angle) ^ 2) /
          Real.sqrt ((width / 2 * Real.sin angle) ^ 2 + (height / 2 * Real.cos angle) ^ 2) ^ 2
        from by ring]
    rw [hs2, mul_div_assoc, div_self (ne_of_gt hSpos), mul_one, one_mul]

/-- Witness for claim C10 at a circular ellipse of width and height 2,
angle 0. -/
theorem distanceToBorderEllipse_witness :
    (0 : ℝ) < 2 ∧ (0 : ℝ) < 2 ∧
      (distanceToBorderEllipse 2 2 0 =
          2 / 2 * (2 / 2) /
            Real.sqrt ((2 / 2 * Real.sin 0) ^ 2 + (2 / 2 * Real.cos 0) ^ 2) ∧
        0 < distanceToBorderEllipse 2 2 0 ∧
        (distanceToBorderEllipse 2 2 0 * Real.cos 0) ^ 2 / (2 / 2) ^ 2 +
          (distanceToBorderEllipse 2 2 0 * Real.sin 0) ^ 2 / (2 / 2) ^ 2 = 1) :=
  ⟨by norm_num, by norm_num,
    distanceToBorderEllipse_radial 2 2 0 (by norm_num) (by norm_num)⟩

/-!
## Selection accumulator and `SelectionHandler.setSelection`

The `SelectionAccumulator` class (imported from `./selection`) is not
under `src/`; it is modelled from the spec (§4.4): a committed set and a
current (committed plus pending operations) set per collection;
`addNodes`/`addEdges` insert into the current set, `deleteNodes`/
`deleteEdges` remove from it, `clear` empties it, and `commit` — the only
mutator of the committed sets — replaces the committed sets by the
current ones and returns, per collection, the diff
`{added, deleted, previous}` where `previous` is the committed set from
before the commit.
-/

/-- Modelled from the spec: the `SelectionAccumulator` state — committed
and current (committed + pending) id sets for nodes and for edges. -/
structure SelAcc (ι : Type) where
  committedNodes : Finset ι
  currentNodes : Finset ι
  committedEdges : Finset ι
  currentEdges : Finset ι

/-- Modelled from the spec: one collection's commit diff
`{added, deleted, previous}`. -/
structure SelDiff (ι : Type) where
  added : Finset ι
  deleted : Finset ι
  previous : Finset ι

/-- Modelled from the spec: `SelectionAccumulator.clear()` — empties the
current selection of both collections; the committed sets are untouched
(only `commit` mutates them). -/
def clearAcc {ι : Type} (s : SelAcc ι) : SelAcc ι :=
  { s with currentNodes := ∅, currentEdges := ∅ }

/-- Modelled from the spec: `SelectionAccumulator.commit()` — folds the
pending state into the committed sets and returns the node and edge
diffs. -/
def commitAcc {ι : Type} [DecidableEq ι] (s : SelAcc ι) :
    SelAcc ι × SelDiff ι × SelDiff ι :=
  (⟨s.currentNodes, s.currentNodes, s.currentEdges, s.currentEdges⟩,
   ⟨s.currentNodes \ s.committedNodes, s.committedNodes \ s.currentNodes, s.committedNodes⟩,
   ⟨s.currentEdges \ s.committedEdges, s.committedEdges \ s.currentEdges, s.committedEdges⟩)

/-- A node as `setSelection`/`selectObject` see it: its incident edge ids
and its label-node flag. -/
structure GNode (ι : Type) where
  edges : List ι
  isLabelNode : Bool

/-- The graph collections the handler reads: `body.nodes` and
`body.edges`, keyed by id. -/
structure NetworkBody (ι : Type) where
  nodes : ι → Option (GNode ι)
  edges : ι → Bool

/-- `SelectionHandler.selectObject` for a node argument: when
`highlightEdges === true`, stage the node's incident edges, then stage
the node itself. -/
def selectObjectNode {ι : Type} [DecidableEq ι] (highlightEdges : Bool) (id : ι)
    (nd : GNode ι) (s : SelAcc ι) : SelAcc ι :=
  let s1 := if highlightEdges then
    { s with currentEdges := s.currentEdges ∪ nd.edges.toFinset } else s
  { s1 with currentNodes := insert id s1.currentNodes }

/-- `SelectionHandler.selectObject` for an edge argument: stage the
edge. -/
def selectObjectEdge {ι : Type} [DecidableEq ι] (id : ι) (s : SelAcc ι) : SelAcc ι :=
  { s with currentEdges := insert id s.currentEdges }

inductive SetSelectionError (ι : Type) where
  | typeErr : SetSelectionError ι
  | nodeNotFound : ι → SetSelectionError ι
  | edgeNotFound : ι → SetSelectionError ι
deriving DecidableEq

/-- The argument of `setSelection`: an object that may carry a `nodes`
and/or an `edges` id array (a missing property is `none`). -/
structure JsSelection (ι : Type) where
  nodes : Option (List ι)
  edges : Option (List ι)

/-- The options object of `setSelection` (`undefined` fields are
`none`). -/
structure SetSelectionOptions where
  unselectAll : Option Bool
  highlightEdges : Option Bool

/-- The `for (const id of selection.nodes)` loop of `setSelection`:
look every id up in `body.nodes`, throw `RangeError` on the first id with
no node, and select (unless it is a label node) otherwise.  The returned
state is the state at normal exit or at the throw. -/
def setSelectionNodesLoop {ι : Type} [DecidableEq ι] (body : NetworkBody ι)
    (highlightEdges : Bool) : List ι → SelAcc ι → Option (SetSelectionError ι) × SelAcc ι
  | [], s => (none, s)
  | id :: rest, s =>
    match body.nodes id with
    | none => (some (SetSelectionError.nodeNotFound id), s)
    | some nd =>
      setSelectionNodesLoop body highlightEdges rest
        (if nd.isLabelNode then s else selectObjectNode highlightEdges id nd s)

/-- The `for (const id of selection.edges)` loop of `setSelection`. -/
def setSelectionEdgesLoop {ι : Type} [DecidableEq ι] (body : NetworkBody ι) :
    List ι → SelAcc ι → Option (SetSelectionError ι) × SelAcc ι
  | [], s => (none, s)
  | id :: rest, s =>
    if body.edges id then setSelectionEdgesLoop body rest (selectObjectEdge id s)
    else (some (SetSelectionError.edgeNotFound id), s)

/-- The node part of `setSelection`: nothing when the argument has no
`nodes` property, the node loop otherwise. -/
def selectionPartNodes {ι : Type} [DecidableEq ι] (body : NetworkBody ι) (hl : Bool) :
    Option (List ι) → SelAcc ι → Option (SetSelectionError ι) × SelAcc ι
  | none, s1 => (none, s1)
  | some ids, s1 => setSelectionNodesLoop body hl ids s1

/-- The edge part of `setSelection`. -/
def selectionPartEdges {ι : Type} [DecidableEq ι] (body : NetworkBody ι) :
    Option (List ι) → SelAcc ι → Option (SetSelectionError ι) × SelAcc ι
  | none, s2 => (none, s2)
  | some ids, s2 => setSelectionEdgesLoop body ids s2

/-- The two selection loops of `setSelection` followed by the final
`commit()`, starting from the state `s1` left by the initial
`unselectAll`; a `RangeError` throw in either loop propagates, leaving
the state as mutated so far and skipping the commit. -/
def setSelectionLoops {ι : Type} [DecidableEq ι] (body : NetworkBody ι)
    (sel : JsSelection ι) (hl : Bool) (s1 : SelAcc ι) :
    Option (SetSelectionError ι) × SelAcc ι :=
  match selectionPartNodes body hl sel.nodes s1 with
  | (some e, s2) => (some e, s2)
  | (none, s2) =>
    match selectionPartEdges body sel.edges s2 with
    | (some e, s3) => (some e, s3)
    | (none, s3) => (none, (commitAcc s3).1)

/-- `SelectionHandler.setSelection`: throw `TypeError` when the argument
has neither a `nodes` nor an `edges` property; unselect everything unless
`options.unselectAll` is explicitly `false`; run the node loop, then the
edge loop, then commit.  The redraw request and the `selectedNodes`
emissions carry no selection state and are not modelled. -/
def setSelection {ι : Type} [DecidableEq ι] (body : NetworkBody ι)
    (sel : JsSelection ι) (opts : SetSelectionOptions) (s : SelAcc ι) :
    Option (SetSelectionError ι) × SelAcc ι :=
  if sel.nodes = none ∧ sel.edges = none then (some SetSelectionError.typeErr, s)
  else
    setSelectionLoops body sel
      (match opts.highlightEdges with
       | some true => true
       | _ => false)
      (match opts.unselectAll with
       | some false => s
       | _ => clearAcc s)

theorem setSelectionNodesLoop_committed {ι : Type} [DecidableEq ι]
    (body : NetworkBody ι) (hl : Bool) :
    ∀ (ids : List ι) (s : SelAcc ι),
      (setSelectionNodesLoop body hl ids s).2.committedNodes = s.committedNodes ∧
      (setSelectionNodesLoop body hl ids s).2.committedEdges = s.committedEdges := by
  intro ids
  induction ids with
  | nil => intro s; exact ⟨rfl, rfl⟩
  | cons id rest ih =>
    intro s
    simp only [setSelectionNodesLoop]
    match hnd : body.nodes id with
    | none => exact ⟨rfl, rfl⟩
    | some nd =>
      have hrec := ih (if nd.isLabelNode then s else selectObjectNode hl id nd s)
      rcases hrec with ⟨h1, h2⟩
      constructor
      · rw [h1]
        split_ifs with hlab
        · rfl
        · simp only [selectObjectNode]
          split_ifs <;> rfl
      · rw [h2]
        split_ifs with hlab
        · rfl
        · simp only [selectObjectNode]
          split_ifs <;> rfl

theorem setSelectionEdgesLoop_committed {ι : Type} [DecidableEq ι]
    (body : NetworkBody ι) :
    ∀ (ids : List ι) (s : SelAcc ι),
      (setSelectionEdgesLoop body ids s).2.committedNodes = s.committedNodes ∧
      (setSelectionEdgesLoop body ids s).2.committedEdges = s.committedEdges := by
  intro ids
  induction ids with
  | nil => intro s; exact ⟨rfl, rfl⟩
  | cons id rest ih =>
    intro s
    simp only [setSelectionEdgesLoop]
    split_ifs with he
    · have := ih (selectObjectEdge id s)
      simpa [selectObjectEdge] using this
    · exact ⟨rfl, rfl⟩

theorem setSelectionNodesLoop_missing {ι : Type} [DecidableEq ι]
    (body : NetworkBody ι) (hl : Bool) :
    ∀ (ids : List ι) (s : SelAcc ι), (∃ id ∈ ids, body.nodes id = none) →
      ∃ j, (setSelectionNodesLoop body hl ids s).1 = some (SetSelectionError.nodeNotFound j) ∧
        body.nodes j = none := by
  intro ids
  induction ids with
  | nil =>
    intro s h
    obtain ⟨id, hmem, -⟩ := h
    exact absurd hmem (List.not_mem_nil id)
  | cons id rest ih =>
    intro s h
    simp only [setSelectionNodesLoop]
    match hnd : body.nodes id with
    | none => exact ⟨id, rfl, hnd⟩
    | some nd =>
      obtain ⟨j, hmem, hj⟩ := h
      rcases List.mem_cons.mp hmem with he | hmem2
      · rw [he] at hj
        rw [hj] at hnd
        cases hnd
      · exact ih _ ⟨j, hmem2, hj⟩

theorem setSelectionEdgesLoop_missing {ι : Type} [DecidableEq ι]
    (body : NetworkBody ι) :
    ∀ (ids : List ι) (s : SelAcc ι), (∃ id ∈ ids, body.edges id = false) →
      ∃ j, (setSelectionEdgesLoop body ids s).1 = some (SetSelectionError.edgeNotFound j) ∧
        body.edges j = false := by
  intro ids
  induction ids with
  | nil =>
    intro s h
    obtain ⟨id, hmem, -⟩ := h
    exact absurd hmem (List.not_mem_nil id)
  | cons id rest ih =>
    intro s h
    simp only [setSelectionEdgesLoop]
    by_cases he : body.edges id
    · rw [if_pos he]
      obtain ⟨j, hmem, hj⟩ := h
      rcases List.mem_cons.mp hmem with heq | hmem2
      · rw [heq] at hj
        rw [hj] at he
        cases he
      · exact ih _ ⟨j, hmem2, hj⟩
    · rw [if_neg he]
      exact ⟨id, rfl, by simpa using he⟩

theorem setSelectionNodesLoop_found {ι : Type} [DecidableEq ι]
    (body : NetworkBody ι) (hl : Bool) :
    ∀ (ids : List ι) (s : SelAcc ι), (∀ id ∈ ids, body.nodes id ≠ none) →
      (setSelectionNodesLoop body hl ids s).1 = none := by
  intro ids
  induction ids with
  | nil => intro s _; rfl
  | cons id rest ih =>
    intro s h
    simp only [setSelectionNodesLoop]
    match hnd : body.nodes id with
    | none => exact absurd hnd (h id (List.mem_cons_self id rest))
    | some nd =>
      exact ih _ (fun j hj => h j (List.mem_cons_of_mem id hj))

theorem setSelectionNodesLoop_some_shape {ι : Type} [DecidableEq ι]
    (body : NetworkBody ι) (hl : Bool) :
    ∀ (ids : List ι) (s : SelAcc ι) (e : SetSelectionError ι),
      (setSelectionNodesLoop body hl ids s).1 = some e →
      ∃ j, e = SetSelectionError.nodeNotFound j ∧ body.nodes j = none := by
  intro ids
  induction ids with
  | nil =>
    intro s e h
    simp [setSelectionNodesLoop] at h
  | cons id rest ih =>
    intro s e h
    simp only [setSelectionNodesLoop] at h
    match hnd : body.nodes id with
    | none =>
      rw [hnd] at h
      simp only [Option.some.injEq] at h
      exact ⟨id, h.symm, hnd⟩
    | some nd =>
      rw [hnd] at h
      exact ih _ e h

theorem setSelectionEdgesLoop_some_shape {ι : Type} [DecidableEq ι]
    (body : NetworkBody ι) :
    ∀ (ids : List ι) (s : SelAcc ι) (e : SetSelectionError ι),
      (setSelectionEdgesLoop body ids s).1 = some e →
      ∃ j, e = SetSelectionError.edgeNotFound j ∧ body.edges j = false := by
  intro ids
  induction ids with
  | nil =>
    intro s e h
    simp [setSelectionEdgesLoop] at h
  | cons id rest ih =>
    intro s e h
    simp only [setSelectionEdgesLoop] at h
    by_cases he : body.edges id
    · rw [if_pos he] at h
      exact ih _ e h
    · rw [if_neg he] at h
      simp only [Option.some.injEq] at h
      exact ⟨id, h.symm, by simpa using he⟩

theorem setSelectionLoops_some_shape {ι : Type} [DecidableEq ι]
    (body : NetworkBody ι) (sel : JsSelection ι) (hl : Bool) (s1 : SelAcc ι)
    (e : SetSelectionError ι) :
    (setSelectionLoops body sel hl s1).1 = some e →
      (∃ j, e = SetSelectionError.nodeNotFound j ∧ body.nodes j = none) ∨
      (∃ j, e = SetSelectionError.edgeNotFound j ∧ body.edges j = false) := by
  intro h
  rcases hsel : sel.nodes with _ | nids
  · rcases hsele : sel.edges with _ | eids
    · simp [setSelectionLoops, hsel, hsele, selectionPartNodes, selectionPartEdges] at h
    · rcases hre : setSelectionEdgesLoop body eids s1 with ⟨oe3, s3⟩
      cases oe3 with
      | some e3 =>
        simp only [setSelectionLoops, hsel, hsele, selectionPartNodes, selectionPartEdges,
          hre, Option.some.injEq] at h
        subst h
        exact Or.inr (setSelectionEdgesLoop_some_shape body eids s1 _ (by rw [hre]))
      | none =>
        simp [setSelectionLoops, hsel, hsele, selectionPartNodes, selectionPartEdges, hre] at h
  · rcases hrn : setSelectionNodesLoop body hl nids s1 with ⟨oe2, s2⟩
    cases oe2 with
    | some e2 =>
      simp only [setSelectionLoops, hsel, selectionPartNodes, hrn, Option.some.injEq] at h
      subst h
      exact Or.inl (setSelectionNodesLoop_some_shape body hl nids s1 _ (by rw [hrn]))
    | none =>
      rcases hsele : sel.edges with _ | eids
      · simp [setSelectionLoops, hsel, hsele, selectionPartNodes, selectionPartEdges, hrn] at h
      · rcases hre : setSelectionEdgesLoop body eids s2 with ⟨oe3, s3⟩
        cases oe3 with
        | some e3 =>
          simp only [setSelectionLoops, hsel, hsele, selectionPartNodes, selectionPartEdges,
            hrn, hre, Option.some.injEq] at h
          subst h
          exact Or.inr (setSelectionEdgesLoop_some_shape body eids s2 _ (by rw [hre]))
        | none =>
          simp [setSelectionLoops, hsel, hsele, selectionPartNodes, selectionPartEdges,
            hrn, hre] at h

theorem setSelectionLoops_committed {ι : Type} [DecidableEq ι]
    (body : NetworkBody ι) (sel : JsSelection ι) (hl : Bool) (s1 : SelAcc ι)
    (e : SetSelectionError ι) :
    (setSelectionLoops body sel hl s1).1 = some e →
      (setSelectionLoops body sel hl s1).2.committedNodes = s1.committedNodes ∧
      (setSelectionLoops body sel hl s1).2.committedEdges = s1.committedEdges := by
  intro h
  rcases hsel : sel.nodes with _ | nids
  · rcases hsele : sel.edges with _ | eids
    · simp [setSelectionLoops, hsel, hsele, selectionPartNodes, selectionPartEdges] at h
    · rcases hre : setSelectionEdgesLoop body eids s1 with ⟨oe3, s3⟩
      cases oe3 with
      | some e3 =>
        have hc := setSelectionEdgesLoop_committed body eids s1
        rw [hre] at hc
        simp only [setSelectionLoops, hsel, hsele, selectionPartNodes, selectionPartEdges, hre]
        exact hc
      | none =>
        simp [setSelectionLoops, hsel, hsele, selectionPartNodes, selectionPartEdges, hre] at h
  · rcases hrn : setSelectionNodesLoop body hl nids s1 with ⟨oe2, s2⟩
    have hcn := setSelectionNodesLoop_committed body hl nids s1
    rw [hrn] at hcn
    cases oe2 with
    | some e2 =>
      simp only [setSelectionLoops, hsel, selectionPartNodes, hrn]
      exact hcn
    | none =>
      rcases hsele : sel.edges with _ | eids
      · simp [setSelectionLoops, hsel, hsele, selectionPartNodes, selectionPartEdges, hrn] at h
      · rcases hre : setSelectionEdgesLoop body eids s2 with ⟨oe3, s3⟩
        have hce := setSelectionEdgesLoop_committed body eids s2
        rw [hre] at hce
        cases oe3 with
        | some e3 =>
          simp only [setSelectionLoops, hsel, hsele, selectionPartNodes, selectionPartEdges,
            hrn, hre]
          exact ⟨hce.1.trans hcn.1, hce.2.trans hcn.2⟩
        | none =>
          simp [setSelectionLoops, hsel, hsele, selectionPartNodes, selectionPartEdges,
            hrn, hre] at h

theorem setSelectionLoops_missing {ι : Type} [DecidableEq ι]
    (body : NetworkBody ι) (sel : JsSelection ι) (hl : Bool) (s1 : SelAcc ι) :
    ((∃ l, sel.nodes = some l ∧ ∃ id ∈ l, body.nodes id = none) ∨
     (∃ l, sel.edges = some l ∧ ∃ id ∈ l, body.edges id = false)) →
    ∃ e, (setSelectionLoops body sel hl s1).1 = some e := by
  intro h
  rcases hsel : sel.nodes with _ | nids
  · rcases h with ⟨l, hl2, -⟩ | ⟨l, hsele, hmiss⟩
    · rw [hsel] at hl2
      cases hl2
    · rcases hre : setSelectionEdgesLoop body l s1 with ⟨oe3, s3⟩
      cases oe3 with
      | some e3 =>
        refine ⟨e3, ?_⟩
        simp only [setSelectionLoops, hsel, hsele, selectionPartNodes, selectionPartEdges, hre]
      | none =>
        obtain ⟨j, hj, -⟩ := setSelectionEdgesLoop_missing body l s1 hmiss
        rw [show (setSelectionEdgesLoop body l s1).1 = none from by rw [hre]] at hj
        cases hj
  · rcases hrn : setSelectionNodesLoop body hl nids s1 with ⟨oe2, s2⟩
    cases oe2 with
    | some e2 =>
      refine ⟨e2, ?_⟩
      simp only [setSelectionLoops, hsel, selectionPartNodes, hrn]
    | none =>
      rcases h with ⟨l, hl2, hmiss⟩ | ⟨l, hsele, hmiss⟩
      · rw [hsel] at hl2
        injection hl2 with heq
        subst heq
        obtain ⟨j, hj, -⟩ := setSelectionNodesLoop_missing body hl nids s1 hmiss
        rw [show (setSelectionNodesLoop body hl nids s1).1 = none from by rw [hrn]] at hj
        cases hj
      · rcases hre : setSelectionEdgesLoop body l s2 with ⟨oe3, s3⟩
        cases oe3 with
        | some e3 =>
          refine ⟨e3, ?_⟩
          simp only [setSelectionLoops, hsel, hsele, selectionPartNodes, selectionPartEdges,
            hrn, hre]
        | none =>
          obtain ⟨j, hj, -⟩ := setSelectionEdgesLoop_missing body l s2 hmiss
          rw [show (setSelectionEdgesLoop body l s2).1 = none from by rw [hre]] at hj
          cases hj

/-- Claim C2: `setSelection` throws a malformed-argument (`TypeError`)
error, leaving the state untouched, when its argument lacks both a
`nodes` and an `edges` property; it throws an unknown-id (`RangeError`)
error whenever any supplied node or edge id is absent from the graph; and
whenever it throws, the committed node and edge sets after the throw
equal the committed sets before the call (the final `commit()` is never
reached). -/
theorem setSelection_error_behavior {ι : Type} [DecidableEq ι]
    (body : NetworkBody ι) (s : SelAcc ι) (sel : JsSelection ι)
    (opts : SetSelectionOptions) :
    (sel.nodes = none → sel.edges = none →
      setSelection body sel opts s = (some SetSelectionError.typeErr, s)) ∧
    (((∃ l, sel.nodes = some l ∧ ∃ id ∈ l, body.nodes id = none) ∨
      (∃ l, sel.edges = some l ∧ ∃ id ∈ l, body.edges id = false)) →
      ∃ e, (setSelection body sel opts s).1 = some e ∧
        ((∃ j, e = SetSelectionError.nodeNotFound j ∧ body.nodes j = none) ∨
         (∃ j, e = SetSelectionError.edgeNotFound j ∧ body.edges j = false))) ∧
    (∀ e, (setSelection body sel opts s).1 = some e →
      (setSelection body sel opts s).2.committedNodes = s.committedNodes ∧
      (setSelection body sel opts s).2.committedEdges = s.committedEdges) := by
  refine ⟨?_, ?_, ?_⟩
  · intro h1 h2
    simp [setSelection, h1, h2]
  · intro h
    have hty : ¬(sel.nodes = none ∧ sel.edges = none) := by
      rcases h with ⟨l, hsel, -⟩ | ⟨l, hsel, -⟩ <;> simp [hsel]
    unfold setSelection
    rw [if_neg hty]
    obtain ⟨e, he⟩ := setSelectionLoops_missing body sel _ _ h
    exact ⟨e, he, setSelectionLoops_some_shape body sel _ _ e he⟩
  · intro e he
    by_cases hty : sel.nodes = none ∧ sel.edges = none
    · unfold setSelection
      rw [if_pos hty]
      exact ⟨rfl, rfl⟩
    · unfold setSelection at he ⊢
      rw [if_neg hty] at he ⊢
      have hcom := setSelectionLoops_committed body sel _ _ e he
      have hs1n : (match opts.unselectAll with
          | some false => s
          | _ => clearAcc s).committedNodes = s.committedNodes := by
        rcases hu : opts.unselectAll with _ | b
        · rfl
        · cases b <;> rfl
      have hs1e : (match opts.unselectAll with
          | some false => s
          | _ => clearAcc s).committedEdges = s.committedEdges := by
        rcases hu : opts.unselectAll with _ | b
        · rfl
        · cases b <;> rfl
      exact ⟨hcom.1.trans hs1n, hcom.2.trans hs1e⟩

/-- Witness for claim C2: a graph with no nodes and no edges, a previous
committed selection holding node 1, and `setSelection({nodes: [99]})`. -/
theorem setSelection_error_witness :
    (∃ e, (setSelection (⟨fun _ => none, fun _ => false⟩ : NetworkBody ℕ)
        ⟨some [99], none⟩ ⟨none, none⟩ ⟨{1}, {1}, ∅, ∅⟩).1 = some e ∧
        ((∃ j, e = SetSelectionError.nodeNotFound j ∧
            (⟨fun _ => none, fun _ => false⟩ : NetworkBody ℕ).nodes j = none) ∨
         (∃ j, e = SetSelectionError.edgeNotFound j ∧
            (⟨fun _ => none, fun _ => false⟩ : NetworkBody ℕ).edges j = false))) ∧
    (setSelection (⟨fun _ => none, fun _ => false⟩ : NetworkBody ℕ)
        ⟨some [99], none⟩ ⟨none, none⟩ ⟨{1}, {1}, ∅, ∅⟩).2.committedNodes = {1} ∧
    (setSelection (⟨fun _ => none, fun _ => false⟩ : NetworkBody ℕ)
        ⟨some [99], none⟩ ⟨none, none⟩ ⟨{1}, {1}, ∅, ∅⟩).2.committedEdges = ∅ := by
  have T := setSelection_error_behavior (⟨fun _ => none, fun _ => false⟩ : NetworkBody ℕ)
    ⟨{1}, {1}, ∅, ∅⟩ ⟨some [99], none⟩ ⟨none, none⟩
  obtain ⟨e, he, hsh⟩ := T.2.1 (Or.inl ⟨[99], rfl, 99, by simp, rfl⟩)
  have h3 := T.2.2 e he
  exact ⟨⟨e, he, hsh⟩, h3.1, h3.2⟩

/-!
## `SelectionHandler.commitAndEmit`

After a pointer gesture the handler commits the accumulator and emits the
selection-change events in the source's fixed order, tracking with the
`selected` flag whether anything fired.
-/

/-- The events `commitAndEmit` can emit, with the payload relevant to the
claim: both deselect events carry the `previousSelection` (previous
committed node ids, previous committed edge ids). -/
inductive CEEvent (ι : Type) where
  | deselectEdge : Finset ι × Finset ι → CEEvent ι
  | deselectNode : Finset ι × Finset ι → CEEvent ι
  | selectNode : CEEvent ι
  | selectEdge : CEEvent ι
  | select : CEEvent ι
deriving DecidableEq

/-- `SelectionHandler.commitAndEmit`: commit the accumulator, then (in
this order) emit `deselectEdge` if edges were deleted, `deselectNode` if
nodes were deleted, `selectNode` if nodes were added, `selectEdge` if
edges were added — the deselect events carrying the previous selection —
and finally a generic `select` event if the `selected` flag was set by
any of the four.  Returns the new accumulator state and the emitted
events in order. -/
def commitAndEmit {ι : Type} [DecidableEq ι] (s : SelAcc ι) :
    SelAcc ι × List (CEEvent ι) :=
  let c := commitAcc s
  let previousSelection := (c.2.1.previous, c.2.2.previous)
  let step1 : List (CEEvent ι) × Bool :=
    if c.2.2.deleted.Nonempty then ([CEEvent.deselectEdge previousSelection], true)
    else ([], false)
  let step2 : List (CEEvent ι) × Bool :=
    if c.2.1.deleted.Nonempty then (step1.1 ++ [CEEvent.deselectNode previousSelection], true)
    else step1
  let step3 : List (CEEvent ι) × Bool :=
    if c.2.1.added.Nonempty then (step2.1 ++ [CEEvent.selectNode], true) else step2
  let step4 : List (CEEvent ι) × Bool :=
    if c.2.2.added.Nonempty then (step3.1 ++ [CEEvent.selectEdge], true) else step3
  (c.1, if step4.2 then step4.1 ++ [CEEvent.select] else step4.1)

/-- Claim C3: `commitAndEmit` commits (the committed sets become the
current ones) and emits, in exactly this order: `deselectEdge` iff some
edges were deleted by the commit, then `deselectNode` iff some nodes were
deleted, then `selectNode` iff some nodes were added, then `selectEdge`
iff some edges were added, and finally the generic `select` event iff at
least one of the four fired; both deselect events carry the committed
selection from before this commit as `previousSelection`. -/
theorem commitAndEmit_order {ι : Type} [DecidableEq ι] (s : SelAcc ι) :
    commitAndEmit s =
      (⟨s.currentNodes, s.currentNodes, s.currentEdges, s.currentEdges⟩,
        (if (s.committedEdges \ s.currentEdges).Nonempty then
          [CEEvent.deselectEdge (s.committedNodes, s.committedEdges)] else []) ++
        (if (s.committedNodes \ s.currentNodes).Nonempty then
          [CEEvent.deselectNode (s.committedNodes, s.committedEdges)] else []) ++
        (if (s.currentNodes \ s.committedNodes).Nonempty then [CEEvent.selectNode] else []) ++
        (if (s.currentEdges \ s.committedEdges).Nonempty then [CEEvent.selectEdge] else []) ++
        (if (s.committedEdges \ s.currentEdges).Nonempty ∨
            (s.committedNodes \ s.currentNodes).Nonempty ∨
            (s.currentNodes \ s.committedNodes).Nonempty ∨
            (s.currentEdges \ s.committedEdges).Nonempty then [CEEvent.select] else [])) := by
  unfold commitAndEmit commitAcc
  by_cases h1 : (s.committedEdges \ s.currentEdges).Nonempty <;>
    by_cases h2 : (s.committedNodes \ s.currentNodes).Nonempty <;>
      by_cases h3 : (s.currentNodes \ s.committedNodes).Nonempty <;>
        by_cases h4 : (s.currentEdges \ s.committedEdges).Nonempty <;>
          simp [h1, h2, h3, h4]

/-!
## `SelectionHandler.getEdgeAt`

The source iterates `body.edgeIndices` in order, skips unconnected edges,
computes each edge's `getDistanceToEdge` to the pointer and keeps the
strict minimum, starting from `mindist = 10`; the embedding abstracts the
iteration as a list of `(id, connected, distance-at-this-pointer)`
records in index order.
-/

structure EdgeHit (ι : Type) where
  id : ι
  connected : Bool
  dist : ℝ

noncomputable def getEdgeAtGo {ι : Type} : List (EdgeHit ι) → ℝ → Option ι → Option ι
  | [], _, best => best
  | e :: rest, mindist, best =>
    if e.connected = true ∧ e.dist < mindist then getEdgeAtGo rest e.dist (some e.id)
    else getEdgeAtGo rest mindist best

noncomputable def getEdgeAt {ι : Type} (edges : List (EdgeHit ι)) : Option ι :=
  getEdgeAtGo edges 10 none

theorem getEdgeAtGo_no_improvement {ι : Type} :
    ∀ (l : List (EdgeHit ι)) (m : ℝ) (best : Option ι),
      (∀ e ∈ l, e.connected = true → m ≤ e.dist) → getEdgeAtGo l m best = best := by
  intro l
  induction l with
  | nil => intro m best _; rfl
  | cons e rest ih =>
    intro m best h
    have hc : ¬(e.connected = true ∧ e.dist < m) := by
      rintro ⟨h1, h2⟩
      exact absurd h2 (not_lt.mpr (h e (List.mem_cons_self e rest) h1))
    simp only [getEdgeAtGo, if_neg hc]
    exact ih m best (fun x hx hxc => h x (List.mem_cons_of_mem e hx) hxc)

theorem getEdgeAtGo_winner {ι : Type} :
    ∀ (l : List (EdgeHit ι)) (m : ℝ) (best : Option ι),
      (∃ e ∈ l, e.connected = true ∧ e.dist < m) →
      ∃ l1 w l2, l = l1 ++ w :: l2 ∧ getEdgeAtGo l m best = some w.id ∧
        w.connected = true ∧ w.dist < m ∧
        (∀ e ∈ l, e.connected = true → w.dist ≤ e.dist) ∧
        (∀ e ∈ l1, e.connected = true → w.dist < e.dist) := by
  intro l
  induction l with
  | nil =>
    intro m best h
    obtain ⟨e, he, -⟩ := h
    exact absurd he (List.not_mem_nil e)
  | cons e rest ih =>
    intro m best h
    by_cases hc : e.connected = true ∧ e.dist < m
    · by_cases himp : ∃ x ∈ rest, x.connected = true ∧ x.dist < e.dist
      · obtain ⟨l1, w, l2, hsplit, hres, hwc, hwd, hmin, hfirst⟩ :=
          ih e.dist (some e.id) himp
        refine ⟨e :: l1, w, l2, by rw [hsplit, List.cons_append], ?_, hwc, lt_trans hwd hc.2, ?_, ?_⟩
        · simp only [getEdgeAtGo, if_pos hc]
          exact hres
        · intro x hx hxc
          rcases List.mem_cons.mp hx with hxe | hxr
          · rw [hxe]
            exact hwd.le
          · exact hmin x hxr hxc
        · intro x hx hxc
          rcases List.mem_cons.mp hx with hxe | hxr
          · rw [hxe]
            exact hwd
          · exact hfirst x hxr hxc
      · push_neg at himp
        refine ⟨[], e, rest, rfl, ?_, hc.1, hc.2, ?_, by simp⟩
        · simp only [getEdgeAtGo, if_pos hc]
          exact getEdgeAtGo_no_improvement rest e.dist (some e.id) himp
        · intro x hx hxc
          rcases List.mem_cons.mp hx with hxe | hxr
          · rw [hxe]
          · exact himp x hxr hxc
    · have hrest : ∃ x ∈ rest, x.connected = true ∧ x.dist < m := by
        obtain ⟨x, hx, hxp⟩ := h
        rcases List.mem_cons.mp hx with hxe | hxr
        · rw [hxe] at hxp
          exact absurd hxp hc
        · exact ⟨x, hxr, hxp⟩
      obtain ⟨l1, w, l2, hsplit, hres, hwc, hwd, hmin, hfirst⟩ := ih m best hrest
      have hem : e.connected = true → w.dist < e.dist := by
        intro hec
        have : ¬e.dist < m := fun hlt => hc ⟨hec, hlt⟩
        exact lt_of_lt_of_le hwd (not_lt.mp this)
      refine ⟨e :: l1, w, l2, by rw [hsplit, List.cons_append], ?_, hwc, hwd, ?_, ?_⟩
      · simp only [getEdgeAtGo, if_neg hc]
        exact hres
      · intro x hx hxc
        rcases List.mem_cons.mp hx with hxe | hxr
        · rw [hxe]
          exact (hem (by rw [← hxe]; exact hxc)).le
        · exact hmin x hxr hxc
      · intro x hx hxc
        rcases List.mem_cons.mp hx with hxe | hxr
        · rw [hxe]
          exact hem (by rw [← hxe]; exact hxc)
        · exact hfirst x hxr hxc

/-- Claim C6: `getEdgeAt` considers only connected edges, keeps the
strict minimum of the per-edge distances starting from the fixed
tolerance 10, returns an edge iff some connected edge's distance is below
10, resolves ties by iteration order (the winner is the first edge
attaining the minimum: every earlier connected edge is strictly
farther), and — for a straight edge from `(0,0)` to `(20,0)` — a pointer
at `(10,9)`, 9 units from the midpoint, is a hit while a pointer at
`(10,11)`, 11 units away, is not. -/
theorem getEdgeAt_spec :
    (∀ (ι : Type) (l : List (EdgeHit ι)),
      getEdgeAt l ≠ none ↔ ∃ e ∈ l, e.connected = true ∧ e.dist < 10) ∧
    (∀ (ι : Type) (l : List (EdgeHit ι)) (wid : ι), getEdgeAt l = some wid →
      ∃ (l1 : List (EdgeHit ι)) (w : EdgeHit ι) (l2 : List (EdgeHit ι)),
        l = l1 ++ w :: l2 ∧ w.id = wid ∧ w.connected = true ∧ w.dist < 10 ∧
        (∀ e ∈ l, e.connected = true → w.dist ≤ e.dist) ∧
        (∀ e ∈ l1, e.connected = true → w.dist < e.dist)) ∧
    (getEdgeAt [⟨(0 : ℕ), true, getDistanceToLine 0 0 20 0 10 9⟩] = some 0 ∧
      getEdgeAt [⟨(0 : ℕ), true, getDistanceToLine 0 0 20 0 10 11⟩] = none) := by
  have hiff : ∀ (ι : Type) (l : List (EdgeHit ι)),
      getEdgeAt l ≠ none ↔ ∃ e ∈ l, e.connected = true ∧ e.dist < 10 := by
    intro ι l
    constructor
    · intro h
      by_contra hno
      push_neg at hno
      exact h (getEdgeAtGo_no_improvement l 10 none hno)
    · intro h
      obtain ⟨l1, w, l2, -, hres, -⟩ := getEdgeAtGo_winner l 10 none h
      rw [show getEdgeAt l = getEdgeAtGo l 10 none from rfl, hres]
      simp
  refine ⟨hiff, ?_, ?_, ?_⟩
  · intro ι l wid h
    have hne : getEdgeAt l ≠ none := by
      rw [h]
      simp
    obtain ⟨l1, w, l2, hsplit, hres, hwc, hwd, hmin, hfirst⟩ :=
      getEdgeAtGo_winner l 10 none ((hiff ι l).mp hne)
    have hwid : w.id = wid := by
      rw [show getEdgeAt l = getEdgeAtGo l 10 none from rfl, hres] at h
      injection h
    exact ⟨l1, w, l2, hsplit, hwid, hwc, hwd, hmin, hfirst⟩
  · have h9 : getDistanceToLine 0 0 20 0 10 9 = 9 := by
      simp only [getDistanceToLine]
      norm_num
      rw [show (81 : ℝ) = 9 ^ 2 from by norm_num, Real.sqrt_sq (by norm_num : (0 : ℝ) ≤ 9)]
    rw [h9]
    norm_num [getEdgeAt, getEdgeAtGo]
  · have h11 : getDistanceToLine 0 0 20 0 10 11 = 11 := by
      simp only [getDistanceToLine]
      norm_num
      rw [show (121 : ℝ) = 11 ^ 2 from by norm_num,
        Real.sqrt_sq (by norm_num : (0 : ℝ) ≤ 11)]
    rw [h11]
    norm_num [getEdgeAt, getEdgeAtGo]

/-- Witness for claim C6's winner characterization at a one-edge list. -/
theorem getEdgeAt_spec_witness :
    getEdgeAt [⟨(0 : ℕ), true, (5 : ℝ)⟩] = some 0 ∧
    (∃ (l1 : List (EdgeHit ℕ)) (w : EdgeHit ℕ) (l2 : List (EdgeHit ℕ)),
      ([⟨(0 : ℕ), true, (5 : ℝ)⟩] : List (EdgeHit ℕ)) = l1 ++ w :: l2 ∧
      w.id = 0 ∧ w.connected = true ∧ w.dist < 10 ∧
      (∀ e ∈ ([⟨(0 : ℕ), true, (5 : ℝ)⟩] : List (EdgeHit ℕ)),
        e.connected = true → w.dist ≤ e.dist) ∧
      (∀ e ∈ l1, e.connected = true → w.dist < e.dist)) := by
  have h : getEdgeAt [⟨(0 : ℕ), true, (5 : ℝ)⟩] = some 0 := by
    norm_num [getEdgeAt, getEdgeAtGo]
  exact ⟨h, getEdgeAt_spec.2.1 ℕ _ 0 h⟩

/-!
## `SelectionHandler.selectOnPoint`

The source (with selection enabled) first hit-tests —
`const obj = this.getNodeAt(pointer) || this.getEdgeAt(pointer)` — and
only then calls `this.unselectAll()` (its comment: "unselect after
getting the objects in order to restore width and height"), then selects
the hit if any and requests a redraw.  The embedding records the steps in
execution order and threads the accumulator state; the hit-test outcome
is the `hit` argument.
-/

inductive SOPStep (ι : Type) where
  | hitTest : Option ι → SOPStep ι
  | unselectAll : SOPStep ι
  | selectObj : ι → SOPStep ι
  | requestRedraw : SOPStep ι
deriving DecidableEq

inductive HitObject (ι : Type) where
  | node : ι → List ι → HitObject ι
  | edge : ι → HitObject ι
deriving DecidableEq

def hitId {ι : Type} : HitObject ι → ι
  | HitObject.node i _ => i
  | HitObject.edge i => i

/-- `selectObject` dispatched on the hit's runtime type: a node stages
its incident edges (when connected-edge selection is on) and itself, an
edge stages itself. -/
def applySelectObject {ι : Type} [DecidableEq ι] (selectConnectedEdges : Bool) :
    HitObject ι → SelAcc ι → SelAcc ι
  | HitObject.node i es, s => selectObjectNode selectConnectedEdges i ⟨es, false⟩ s
  | HitObject.edge i, s => selectObjectEdge i s

/-- `SelectionHandler.selectOnPoint`: hit-test, then `unselectAll()`,
then select the hit if any, then request a redraw; returns the new
accumulator state, the executed steps in order and the `selected`
flag. -/
def selectOnPoint {ι : Type} [DecidableEq ι] (selectable selectConnectedEdges : Bool)
    (hit : Option (HitObject ι)) (s : SelAcc ι) :
    SelAcc ι × List (SOPStep ι) × Bool :=
  if selectable then
    let tr0 : List (SOPStep ι) := [SOPStep.hitTest (Option.map hitId hit)]
    let s1 := clearAcc s
    let tr1 := tr0 ++ [SOPStep.unselectAll]
    match hit with
    | some obj =>
      (applySelectObject selectConnectedEdges obj s1,
        tr1 ++ [SOPStep.selectObj (hitId obj)] ++ [SOPStep.requestRedraw], true)
    | none => (s1, tr1 ++ [SOPStep.requestRedraw], false)
  else (s, [], false)

/-- Claim C7, counterexample: with selection enabled, a committed-empty
accumulator whose current selection holds node 7, and a hit on node 3,
the executed step list starts with the hit-test and the unconditional
`unselectAll` comes second — not the claimed clear-then-hit-test
order. -/
theorem selectOnPoint_order_counterexample :
    (selectOnPoint true true (some (HitObject.node 3 [5])) (⟨∅, {7}, ∅, ∅⟩ : SelAcc ℕ)).2.1 =
      [SOPStep.hitTest (some 3), SOPStep.unselectAll, SOPStep.selectObj 3,
        SOPStep.requestRedraw] ∧
    [SOPStep.hitTest (some 3), SOPStep.unselectAll, SOPStep.selectObj 3,
        SOPStep.requestRedraw] ≠
      [SOPStep.unselectAll, SOPStep.hitTest (some (3 : ℕ)), SOPStep.selectObj 3,
        SOPStep.requestRedraw] := by
  constructor
  · rfl
  · decide

/-- Claim C7 (amended): with selection enabled, `selectOnPoint` performs
its steps in this order: first hit-test at the pointer, **then**
unconditionally unselect everything, then select the hit object if any,
then request a redraw — the hit-test happens before the clear (the
source's comment explains: the widths/heights of the still-selected items
must be read before unselecting).  Consequently the resulting current
selection contains only what the hit contributed, and the committed sets
are untouched. -/
theorem selectOnPoint_hit_test_before_clear {ι : Type} [DecidableEq ι]
    (sce : Bool) (hit : Option (HitObject ι)) (s : SelAcc ι) :
    (selectOnPoint true sce hit s).2.1 =
      [SOPStep.hitTest (Option.map hitId hit), SOPStep.unselectAll] ++
        (match hit with
         | some o => [SOPStep.selectObj (hitId o)]
         | none => []) ++ [SOPStep.requestRedraw] ∧
    (selectOnPoint true sce hit s).1.committedNodes = s.committedNodes ∧
    (selectOnPoint true sce hit s).1.committedEdges = s.committedEdges ∧
    (selectOnPoint true sce hit s).1.currentNodes =
      (match hit with
       | some (HitObject.node i _) => {i}
       | _ => ∅) ∧
    (selectOnPoint true sce hit s).1.currentEdges =
      (match hit with
       | some (HitObject.node _ es) => if sce then es.toFinset else ∅
       | some (HitObject.edge i) => {i}
       | none => ∅) ∧
    (selectOnPoint true sce hit s).2.2 = hit.isSome := by
  rcases hit with _ | obj
  · simp [selectOnPoint, clearAcc]
  · rcases obj with ⟨i, es⟩ | i
    · cases sce <;>
        simp [selectOnPoint, applySelectObject, selectObjectNode, clearAcc]
    · simp [selectOnPoint, applySelectObject, selectObjectEdge, clearAcc]

/-!
## Subordinate-chain hover walk (`SelectionHandler.hoverObject`)

`find_subordinate_nodes`: starting from the hit node's id, if the node
exists and its hierarchy `level` is not 0, take every edge whose `to`
endpoint is this node, push the edge's `fromId` and `eventualId` (the
latter pushed even when the edge has no eventual node — JS pushes
`undefined`, modelled as `none`), and recurse into both; a missing node
(or an `undefined` id) stops the recursion.  The JS recursion is
unbounded (the spec notes the assumed-acyclic input); the embedding
carries a fuel argument, large enough for the bounded scenarios of the
claim. -/

structure HEdge (ι : Type) where
  fromId : ι
  toId : ι
  eventualId : Option ι
deriving DecidableEq

structure HGraph (ι : Type) where
  nodeLevel : ι → Option ℤ
  edges : List (HEdge ι)

def findSubordinateNodes {ι : Type} [DecidableEq ι] (g : HGraph ι) :
    ℕ → Option ι → List (Option ι)
  | _, none => []
  | 0, some _ => []
  | fuel + 1, some nid =>
    match g.nodeLevel nid with
    | none => []
    | some lvl =>
      if lvl = 0 then []
      else
        ((g.edges.filter (fun e => decide (e.toId = nid))).map
          (fun e => [some e.fromId, e.eventualId] ++
            findSubordinateNodes g fuel (some e.fromId) ++
            findSubordinateNodes g fuel e.eventualId)).flatten

inductive HoverHit (ι : Type) where
  | node : ι → HoverHit ι
  | edge : ι → HoverHit ι
deriving DecidableEq

/-- The `hoveredNodes` emissions of one `hoverObject` call: the empty
list when nothing is hit and a previous subordinate chain existed; one
event with the walk result plus the hit's own id when the
subordinate-highlight block runs — for a node hit, when no drag is in
progress (`window.isUserDragging` undefined or false) or a drag just
ended. -/
def hoveredNodesEvents {ι : Type} [DecidableEq ι] (g : HGraph ι) (fuel : ℕ)
    (object : Option (HoverHit ι)) (lastHoveredNodes : List (Option ι))
    (isUserDragging wasUserDragging : Option Bool) : List (List (Option ι)) :=
  (match object with
   | none => if lastHoveredNodes.length > 0 then [([] : List (Option ι))] else []
   | some _ => []) ++
  (match object with
   | none => []
   | some (HoverHit.node id) =>
     if (isUserDragging = none ∨ isUserDragging = some false) ∨
        (wasUserDragging = some true ∧ isUserDragging = some false) then
       [findSubordinateNodes g fuel (some id) ++ [some id]]
     else []
   | some (HoverHit.edge id) =>
     if wasUserDragging = some true ∧ isUserDragging = some false then
       [findSubordinateNodes g fuel (some id) ++ [some id]]
     else [])

/-- Claim C8, counterexample: hovering the level-2 node 2 whose only
path to level 0 is the single 2-node edge from node 1 (level 0, no
eventual endpoint), with no drag in progress, emits one `hoveredNodes`
event whose list is `[1, undefined, 2]` — the walk pushes the missing
`eventualId` as `undefined` — and not the claimed "exactly the
intermediate node(s) plus the hovered node's own id" `[1, 2]`. -/
theorem hoveredNodesEvents_missing_eventual_counterexample :
    hoveredNodesEvents
        (⟨fun n => if n = 2 then some 2 else if n = 1 then some 0 else none,
          [⟨1, 2, none⟩]⟩ : HGraph ℕ) 10 (some (HoverHit.node 2)) [] none none =
      [[some 1, none, some 2]] ∧
    [[(some 1 : Option ℕ), none, some 2]] ≠ [[some 1, some 2]] := by
  constructor
  · rfl
  · decide

theorem findSubordinateNodes_level_zero {ι : Type} [DecidableEq ι] (g : HGraph ι)
    (fuel : ℕ) (x : ι) (hx : g.nodeLevel x = some 0) :
    findSubordinateNodes g (fuel + 1) (some x) = [] := by
  simp only [findSubordinateNodes, hx]
  simp

/-- Claim C8 (amended): when a node is freshly hovered with no drag in
progress, exactly one `hoveredNodes` event is emitted; its id list is,
for each edge whose `to` endpoint is the hovered node, the edge's `from`
endpoint and its `eventual` endpoint (an `undefined` placeholder when the
edge has none) — recursing under the level-0 stopping rule — followed by
the hovered node's own id.  In particular, for a level-2 node whose only
incoming edge comes from a level-0 `from` endpoint with a level-0
`eventual` endpoint, the emitted list is exactly those intermediate
node ids plus the hovered node's own id. -/
theorem hoveredNodesEvents_single_event {ι : Type} [DecidableEq ι]
    (g : HGraph ι) (fuel : ℕ) (H F Ev : ι) (lastHoveredNodes : List (Option ι))
    (isDrag wasDrag : Option Bool)
    (hH : g.nodeLevel H = some 2)
    (hfilter : g.edges.filter (fun e => decide (e.toId = H)) = [⟨F, H, some Ev⟩])
    (hF : g.nodeLevel F = some 0) (hEv : g.nodeLevel Ev = some 0)
    (hdrag : isDrag = none ∨ isDrag = some false) :
    hoveredNodesEvents g (fuel + 2) (some (HoverHit.node H)) lastHoveredNodes
        isDrag wasDrag =
      [[some F, some Ev, some H]] := by
  have hwalk : findSubordinateNodes g (fuel + 2) (some H) = [some F, some Ev] := by
    show findSubordinateNodes g ((fuel + 1) + 1) (some H) = [some F, some Ev]
    simp only [findSubordinateNodes, hH]
    rw [if_neg (by norm_num), hfilter]
    simp [hF, hEv, findSubordinateNodes_level_zero g fuel F hF,
      findSubordinateNodes_level_zero g fuel Ev hEv]
  unfold hoveredNodesEvents
  dsimp only
  rw [if_pos (Or.inl hdrag), hwalk]
  rfl

/-- Witness for the amended claim C8: nodes 0 and 1 at level 0, node 2
at level 2, one chained edge from 0 through 2 with eventual endpoint
1. -/
theorem hoveredNodesEvents_single_event_witness :
    ((⟨fun n => if n = 2 then some 2 else if n ≤ 1 then some 0 else none,
        [⟨0, 2, some 1⟩]⟩ : HGraph ℕ).nodeLevel 2 = some 2) ∧
    ((⟨fun n => if n = 2 then some 2 else if n ≤ 1 then some 0 else none,
        [⟨0, 2, some 1⟩]⟩ : HGraph ℕ).edges.filter (fun e => decide (e.toId = 2)) =
      [⟨0, 2, some 1⟩]) ∧
    hoveredNodesEvents
        (⟨fun n => if n = 2 then some 2 else if n ≤ 1 then some 0 else none,
          [⟨0, 2, some 1⟩]⟩ : HGraph ℕ) (8 + 2) (some (HoverHit.node 2)) [] none none =
      [[some 0, some 1, some 2]] := by
  refine ⟨by norm_num, by decide, ?_⟩
  exact hoveredNodesEvents_single_event _ 8 2 0 1 [] none none (by norm_num) (by decide)
    (by norm_num) (by norm_num) (Or.inl rfl)

/-!
## `SelectionHandler._hoverConnectedEdges`

The source first runs
`for (let i = 0; i < this.body.nodes.length; i++) { const node = this.body.nodes[i]; node.hover = true; this._addToHover(node); }`;
`this.body.nodes` is a keyed object (ids map to nodes), so `.length` on
it is `undefined`, the guard `0 < undefined` is false, and this loop
performs **zero** iterations — no node is flagged.  The second loop flags
every edge incident to the given node and adds it to the hover map.
-/

structure HoverNode (ι : Type) where
  edges : List ι

structure HoverMaps (ι : Type) where
  nodeHover : ι → Bool
  edgeHover : ι → Bool
  hoveredNodeIds : Finset ι
  hoveredEdgeIds : Finset ι

def hoverConnectedEdges {ι : Type} [DecidableEq ι] (nd : HoverNode ι)
    (st : HoverMaps ι) : HoverMaps ι :=
  nd.edges.foldl
    (fun s eid =>
      { s with edgeHover := fun e => if e = eid then true else s.edgeHover e,
               hoveredEdgeIds := insert eid s.hoveredEdgeIds }) st

theorem hoverConnectedEdges_fold_nodes {ι : Type} [DecidableEq ι] :
    ∀ (l : List ι) (st : HoverMaps ι),
      (hoverConnectedEdges ⟨l⟩ st).nodeHover = st.nodeHover ∧
      (hoverConnectedEdges ⟨l⟩ st).hoveredNodeIds = st.hoveredNodeIds := by
  intro l
  induction l with
  | nil => intro st; exact ⟨rfl, rfl⟩
  | cons e rest ih =>
    intro st
    exact ih _

theorem hoverConnectedEdges_fold_edges {ι : Type} [DecidableEq ι] :
    ∀ (l : List ι) (st : HoverMaps ι),
      (hoverConnectedEdges ⟨l⟩ st).hoveredEdgeIds = st.hoveredEdgeIds ∪ l.toFinset ∧
      (∀ eid, (hoverConnectedEdges ⟨l⟩ st).edgeHover eid = true ↔
        eid ∈ l ∨ st.edgeHover eid = true) := by
  intro l
  induction l with
  | nil =>
    intro st
    constructor
    · simp [hoverConnectedEdges]
    · intro eid
      simp [hoverConnectedEdges]
  | cons e rest ih =>
    intro st
    have hstep : hoverConnectedEdges ⟨e :: rest⟩ st =
        hoverConnectedEdges ⟨rest⟩
          { st with edgeHover := fun x => if x = e then true else st.edgeHover x,
                    hoveredEdgeIds := insert e st.hoveredEdgeIds } := rfl
    rw [hstep]
    obtain ⟨ih1, ih2⟩ := ih
      { st with edgeHover := fun x => if x = e then true else st.edgeHover x,
                hoveredEdgeIds := insert e st.hoveredEdgeIds }
    constructor
    · rw [ih1]
      ext a
      simp [or_comm, or_left_comm]
    · intro eid
      rw [ih2 eid]
      by_cases he : eid = e
      · subst he
        simp
      · simp [he]

/-- Claim C9 evaluated against the code: `_hoverConnectedEdges` sets the
hover flag on (and adds to the hover map) exactly the edges incident to
the hit node, and leaves every node's hover flag and the hovered-node map
unchanged — the "flag all nodes network-wide" loop reads `.length` of a
keyed object, which is `undefined`, so it never iterates and **no** node
is flagged, contradicting the claim that every node in the network
becomes flagged hovered. -/
theorem hoverConnectedEdges_no_node_flagged {ι : Type} [DecidableEq ι]
    (nd : HoverNode ι) (st : HoverMaps ι) :
    (hoverConnectedEdges nd st).nodeHover = st.nodeHover ∧
    (hoverConnectedEdges nd st).hoveredNodeIds = st.hoveredNodeIds ∧
    (∀ eid ∈ nd.edges, (hoverConnectedEdges nd st).edgeHover eid = true ∧
      eid ∈ (hoverConnectedEdges nd st).hoveredEdgeIds) ∧
    (hoverConnectedEdges nd st).hoveredEdgeIds =
      st.hoveredEdgeIds ∪ nd.edges.toFinset := by
  obtain ⟨h1, h2⟩ := hoverConnectedEdges_fold_nodes nd.edges st
  obtain ⟨h3, h4⟩ := hoverConnectedEdges_fold_edges nd.edges st
  refine ⟨h1, h2, ?_, h3⟩
  intro eid hmem
  constructor
  · exact (h4 eid).mpr (Or.inl hmem)
  · rw [h3]
    simp [hmem]

/-- Witness for claim C9's theorem at a node with one incident edge and
an empty hover state. -/
theorem hoverConnectedEdges_no_node_flagged_witness :
    (hoverConnectedEdges (⟨[5]⟩ : HoverNode ℕ)
        ⟨fun _ => false, fun _ => false, ∅, ∅⟩).nodeHover = (fun _ => false) ∧
    ((5 : ℕ) ∈ ([5] : List ℕ) ∧
      (hoverConnectedEdges (⟨[5]⟩ : HoverNode ℕ)
          ⟨fun _ => false, fun _ => false, ∅, ∅⟩).edgeHover 5 = true) := by
  have T := hoverConnectedEdges_no_node_flagged (⟨[5]⟩ : HoverNode ℕ)
    ⟨fun _ => false, fun _ => false, ∅, ∅⟩
  have h5 : (5 : ℕ) ∈ ([5] : List ℕ) := by simp
  exact ⟨T.1, h5, (T.2.2.1 5 h5).1⟩

end VisNet
